import Mathlib

/-!
Verification of the FileSearch path-management program (src/src/filesearch_v3.c).

Strings are modelled as `List Char`; C `int` values that can be negative
(distances with the `-1` allocation sentinel, thresholds, row ids) are
modelled as `Int`, and quantities that are provably non-negative in the C
code (working-row entries, lengths) as `Nat`.  Each definition mirrors the
C function of the same name; SQL statements are modelled by their
declarative semantics (filter, sort, limit) over list-of-rows tables.
-/

namespace FileSearch

/-! ### Utility functions (filesearch_v3.c, lines 60-98) -/
/-- `min3` from the source: minimum of three values (lines 60-65).
All uses are on non-negative working values, so it is modelled on `Nat`. -/
def min3 (a b c : Nat) : Nat :=
  let m := a
  let m := if b < m then b else m
  if c < m then c else m

/-- `str_to_lower` (lines 81-85): ASCII lower-casing of every character.
`Char.toLower` folds exactly the ASCII range A-Z, matching C `tolower`
in the default locale on ASCII data. -/
def str_to_lower (s : List Char) : List Char := s.map Char.toLower

/-! ### Levenshtein distance (lines 185-232)

`levW` is the textbook case-weighted recursion; the C program computes it
with a two-row dynamic program, modelled below by `dpStep`/`dpLoop`/`levDP`.
-/
/-- Cost of substituting `x` by `y` in the C code (line 218):
`0` when the ASCII-lowercase foldings agree, else `1`. -/
def costCI (x y : Char) : Nat := if x.toLower = y.toLower then 0 else 1

/-- Cost for plain (case-sensitive) character comparison, used to state the
spec over already-folded strings. -/
def costP (x y : Char) : Nat := if x = y then 0 else 1

/-- Reference recursion for edit distance with substitution cost `cst`
(insertions and deletions cost 1). -/
def levW (cst : Char → Char → Nat) : List Char → List Char → Nat
  | [], ys => ys.length
  | _ :: xs, [] => xs.length + 1
  | x :: xs, y :: ys =>
      min3 (levW cst (x :: xs) ys + 1) (levW cst xs (y :: ys) + 1)
        (levW cst xs ys + cst x y)
  termination_by xs ys => xs.length + ys.length
  decreasing_by all_goals simp_arith

/-- One pass of the inner loop of `levenshtein` (lines 217-220): walking the
shorter string `a`, with `left` the entry just written (`curr[i-1]`) and the
second list the tail of the previous row starting at `prev[i-1]`. -/
def dpStep (bj : Char) : List Char → Nat → List Nat → List Nat
  | [], _, _ => []
  | _ :: _, _, [] => []
  | x :: xs, left, p0 :: prest =>
      let v := min3 (prest.headD 0 + 1) (left + 1) (p0 + costCI x bj)
      v :: dpStep bj xs v prest

/-- One iteration of the outer loop (lines 214-225): `curr[0] = j` followed
by the inner loop. -/
def dpRow (a : List Char) (bj : Char) (j : Nat) (prev : List Nat) : List Nat :=
  j :: dpStep bj a j prev

/-- The outer loop over the longer string (lines 214-225). -/
def dpLoop (a : List Char) : List Char → Nat → List Nat → List Nat
  | [], _, prev => prev
  | bj :: bs, j, prev => dpLoop a bs (j + 1) (dpRow a bj j prev)

/-- The whole dynamic program: initial row `0,1,...,len a` (lines 210-212),
the loop, and the final read of `prev[len1]` (line 227). -/
def levDP (a b : List Char) : Nat :=
  (dpLoop a b 1 (List.range (a.length + 1))).getLastD 0

/-- `levenshtein` (lines 185-232).  `allocOk` tells whether the two
working-row `malloc` calls would succeed; on failure the C code frees and
returns the sentinel `-1` (lines 204-208).  The swap at lines 192-199 makes
the first DP argument the shorter string. -/
def levenshtein (allocOk : Bool) (s1 s2 : List Char) : Int :=
  if s1.length = 0 then (s2.length : Int)
  else if s2.length = 0 then (s1.length : Int)
  else
    let p := if s2.length < s1.length then (s2, s1) else (s1, s2)
    if allocOk then (levDP p.1 p.2 : Int) else -1

/-- `sqlite_levenshtein` (lines 234-249): the SQL scalar function.  `none`
arguments model SQL NULL text values, the `none` result models
`sqlite3_result_null`; otherwise the `levenshtein` result (including the
`-1` sentinel) is forwarded via `sqlite3_result_int`. -/
def sqlite_levenshtein (allocOk : Bool) (s1 s2 : Option (List Char)) :
    Option Int :=
  match s1, s2 with
  | some a, some b => some (levenshtein allocOk a b)
  | _, _ => none

/-! ### Edit scripts

`EditPath xs ys n` is the spec's notion: `ys` can be obtained from `xs` by
`n` single-character insertions, deletions and substitutions (matching
characters are advanced over for free).  The Levenshtein distance is the
least such `n`. -/
/-- An edit alignment between two strings using exactly `n` paid
single-character operations. -/
inductive EditPath : List Char → List Char → Nat → Prop
  | nil : EditPath [] [] 0
  | ins {xs ys n} (y : Char) : EditPath xs ys n → EditPath xs (y :: ys) (n + 1)
  | del {xs ys n} (x : Char) : EditPath xs ys n → EditPath (x :: xs) ys (n + 1)
  | sub {xs ys n} (x y : Char) :
      EditPath xs ys n → EditPath (x :: xs) (y :: ys) (n + 1)
  | eq {xs ys n} (x : Char) : EditPath xs ys n → EditPath (x :: xs) (x :: ys) n

/-! ### Correctness of the two-row dynamic program

Row `j` of the C loop holds, at index `i`, the case-insensitive distance
between the reversed `i`-prefix of the shorter string and the reversed
`j`-prefix of the longer one; `specRow w u as` is that row with `w` the
reversed processed part of the longer string and `u` the reversed already
scanned part of the shorter one. -/
/-- The intended contents of a working row. -/
def specRow (w : List Char) : List Char → List Char → List Nat
  | u, [] => [levW costCI u w]
  | u, x :: xs => levW costCI u w :: specRow w (x :: u) xs

/-! ### Substring matching and the tag-similarity scan (lines 255-268 and
932-1068) -/
/-- `is_substring_match` (lines 255-268): case-insensitive bidirectional
containment (`strstr` both ways after lower-casing); the 256-byte stack
buffers truncate each input to its first 255 characters. -/
def is_substring_match (s1 s2 : List Char) : Bool :=
  let lower1 := str_to_lower (s1.take 255)
  let lower2 := str_to_lower (s2.take 255)
  decide (lower2 <:+: lower1) || decide (lower1 <:+: lower2)

/-- SQLite `NOCASE` collation equality: equal after ASCII folding. -/
def ciEq (a b : List Char) : Bool := str_to_lower a == str_to_lower b

/-- Result state of `find_similar_tags` (lines 975-1020): the
`found_count` return value, the internal `best_distance`, and the three
output parameters `similar_name`, `similar_distance`, `is_substring`. -/
structure SimState where
  found : Nat
  best : Int
  name : List Char
  dist : Int
  isSub : Bool
  deriving DecidableEq, Repr

/-- One iteration of the scan loop of `find_similar_tags`
(lines 991-1016). -/
def findSimilarStep (threshold : Int) (newTag : List Char)
    (st : SimState) (existing : List Char) : SimState :=
  if is_substring_match newTag existing then
    if st.found = 0 ∨ st.isSub = false then
      { st with
        found := st.found + 1
        name := existing
        dist := |(newTag.length : Int) - (existing.length : Int)|
        isSub := true }
    else st
  else
    if 0 < levenshtein true newTag existing ∧
        levenshtein true newTag existing ≤ threshold ∧
        levenshtein true newTag existing < st.best then
      { found := st.found + 1
        best := levenshtein true newTag existing
        name := existing
        dist := levenshtein true newTag existing
        isSub := false }
    else st

/-- `find_similar_tags` (lines 975-1020).  `threshold` is the
`similarity_threshold` setting read at line 977; `tags` is the list of
existing tag names in table order (`SELECT name FROM tags`). -/
def find_similar_tags (threshold : Int) (newTag : List Char)
    (tags : List (List Char)) : SimState :=
  tags.foldl (findSimilarStep threshold newTag)
    { found := 0, best := threshold + 1, name := [], dist := 0,
      isSub := false }

/-! ### Tag and category table operations (lines 767-806, 932-968,
1026-1068).  A table is a list of `(rowid, name)` pairs in insertion
order; `nextId` is the rowid SQLite would assign to the next insert. -/
/-- A `tags` or `categories` row. -/
abbrev NamedRow := Nat × List Char

/-- `get_tag_id` (lines 932-949): `SELECT id FROM tags WHERE name = ?
COLLATE NOCASE`, first row in table order, `-1` when absent. -/
def get_tag_id (tags : List NamedRow) (name : List Char) : Int :=
  match tags.find? (fun t => ciEq t.2 name) with
  | some t => (t.1 : Int)
  | none => -1

/-- `create_tag` (lines 951-968): a plain `INSERT INTO tags (name)`.
The table's UNIQUE constraint uses the default BINARY collation, so only a
byte-identical name makes the insert fail (`none`, the C `-1`); on success
the new rowid is returned. -/
def create_tag (tags : List NamedRow) (nextId : Nat) (name : List Char) :
    Option (Int × List NamedRow) :=
  if tags.any (fun t => t.2 == name) then none
  else some ((nextId : Int), tags ++ [(nextId, name)])

/-- `get_category_id` (lines 767-784): same query shape as `get_tag_id`
against the `categories` table. -/
def get_category_id (cats : List NamedRow) (name : List Char) : Int :=
  match cats.find? (fun c => ciEq c.2 name) with
  | some c => (c.1 : Int)
  | none => -1

/-- `create_category` (lines 786-806): plain `INSERT INTO categories
(name)`; as for `create_tag`, the UNIQUE constraint is BINARY, so only a
byte-identical duplicate is rejected. -/
def create_category (cats : List NamedRow) (nextId : Nat)
    (name : List Char) : Option (Int × List NamedRow) :=
  if cats.any (fun c => c.2 == name) then none
  else some ((nextId : Int), cats ++ [(nextId, name)])

/-- Outcome of `get_or_create_tag_with_check` (lines 1026-1068). -/
inductive GuardOutcome
  | ReturnedExisting (id : Int)
  | CreatedNew (id : Int)
  | UsedSimilar (id : Int)
  | Cancelled
  | CreateFailed
  deriving DecidableEq, Repr

/-- `get_or_create_tag_with_check` (lines 1026-1068).  The two `Bool`
arguments are the answers the user would give to the "Create new tag
anyway?" and "Use ... instead?" prompts; the function also returns the
resulting tag table. -/
def get_or_create_tag_with_check (threshold : Int) (tags : List NamedRow)
    (nextId : Nat) (tagName : List Char)
    (confirmCreateAnyway confirmUseExisting : Bool) :
    GuardOutcome × List NamedRow :=
  let tid := get_tag_id tags tagName
  if 0 ≤ tid then (.ReturnedExisting tid, tags)
  else
    let sim := find_similar_tags threshold tagName (tags.map (fun t => t.2))
    if 0 < sim.found ∧ confirmCreateAnyway = false then
      if confirmUseExisting then
        (.UsedSimilar (get_tag_id tags sim.name), tags)
      else (.Cancelled, tags)
    else
      match create_tag tags nextId tagName with
      | some r => (.CreatedNew r.1, r.2)
      | none => (.CreateFailed, tags)

/-! ### Behaviour of the similarity scan -/
/-- A scan state whose report is a substring match for `newTag`,
carrying the informational length difference. -/
def SubGood (newTag : List Char) (st : SimState) : Prop :=
  st.isSub = true ∧ 0 < st.found ∧
  is_substring_match newTag st.name = true ∧
  st.dist = |(newTag.length : Int) - (st.name.length : Int)|

/-! ### Fuzzy search (claims C3)

The fuzzy sections of `search_tags_fuzzy` (lines 1283-1304) and
`search_paths_fuzzy` (lines 1515-1548) run
`SELECT ..., levenshtein(name, ?) AS dist FROM t WHERE dist <= ?
ORDER BY dist, name LIMIT ?`.  The `name` columns are declared without a
collation, so `ORDER BY name` uses SQLite's default BINARY collation.
`ORDER BY` is modelled by an insertion sort on the `(dist, name)` key. -/
/-- BINARY-collation (byte order, here code-point order) comparison. -/
def strLE : List Char → List Char → Bool
  | [], _ => true
  | _ :: _, [] => false
  | a :: as, b :: bs =>
    if a.toNat < b.toNat then true
    else if b.toNat < a.toNat then false
    else strLE as bs

/-- Case-insensitive lexical comparison, the order the spec asks for. -/
def ciLE (a b : List Char) : Bool := strLE (str_to_lower a) (str_to_lower b)

/-- `insertSorted le r l` inserts `r` before the first element of `l`
not below it. -/
def insertSorted {α : Type} (le : α → α → Bool) (r : α) : List α → List α
  | [] => [r]
  | x :: xs => if le r x then r :: x :: xs else x :: insertSorted le r xs

/-- Insertion sort, the model of `ORDER BY` over a total key order. -/
def sortBy {α : Type} (le : α → α → Bool) : List α → List α
  | [] => []
  | x :: xs => insertSorted le x (sortBy le xs)

/-- The `(dist, name)` key order of the fuzzy `ORDER BY dist, name`. -/
def fuzzyLE {α : Type} (key : α → List Char) (p q : α × Int) : Bool :=
  decide (p.2 < q.2) || (decide (p.2 = q.2) && strLE (key p.1) (key q.1))

/-- The fuzzy `SELECT` shared by tag and path search: compute
`levenshtein(name, query)` for every row, keep distances at most the
threshold, order by `(dist, name)` and apply `LIMIT`. -/
def fuzzy_query {α : Type} (key : α → List Char) (query : List Char)
    (maxDist : Int) (maxResults : Nat) (rows : List α) : List (α × Int) :=
  (sortBy (fuzzyLE key)
    ((rows.map (fun r => (r, levenshtein true (key r) query))).filter
      (fun p => decide (p.2 ≤ maxDist)))).take maxResults

/-- Fuzzy section of `search_tags_fuzzy` (lines 1283-1304): the corpus is
the tag-name column; `fuzzyDist` is the `fuzzy_default_distance` setting,
`maxResults` the `max_results` setting. -/
def search_tags_fuzzy (query : List Char) (fuzzyDist : Int)
    (maxResults : Nat) (tags : List (List Char)) : List (List Char × Int) :=
  fuzzy_query (fun n => n) query fuzzyDist maxResults tags

/-- A `paths` table row (schema lines 417-424). -/
structure PathRow where
  id : Nat
  path : List Char
  name : List Char
  isDir : Bool
  size : Option Int
  deriving DecidableEq, Repr

/-- `search_paths_fuzzy` (lines 1515-1548); a negative requested distance
falls back to the `fuzzy_default_distance` setting (lines 1518-1520). -/
def search_paths_fuzzy (query : List Char) (maxDistance defaultDist : Int)
    (maxResults : Nat) (paths : List PathRow) : List (PathRow × Int) :=
  fuzzy_query (fun p => p.name) query
    (if maxDistance < 0 then defaultDist else maxDistance) maxResults paths

/-! ### SQL LIKE patterns and structured search (claim C8) -/
/-- SQLite `LIKE` with default settings: `%` matches any sequence, `_`
matches any single character, other characters match literally (both
sides are ASCII-folded by the caller, giving `LIKE`'s ASCII case
insensitivity). -/
def likeMatch : List Char → List Char → Bool
  | [], t => t.isEmpty
  | c :: ps, t =>
    if c = '%' then t.tails.any (fun s => likeMatch ps s)
    else
      match t with
      | [] => false
      | d :: ts => (c == '_' || c == d) && likeMatch ps ts

/-- The `p.name LIKE '%' || ? || '%'` predicate used by
`structured_search` (line 1594) and the substring searches. -/
def nameLike (pat nm : List Char) : Bool :=
  likeMatch ('%' :: str_to_lower pat ++ ['%']) (str_to_lower nm)

/-- The on-disk store: table-existence flags plus table contents.
`hasSettingsTable` stands for the presence of the version-1 taxonomy
tables (settings, categories, tags, junctions), which
`create_schema_v1` creates together; `nextCategoryId` is the rowid the
next category insert would get. -/
structure Store where
  hasPathsTable : Bool
  hasSettingsTable : Bool
  paths : List PathRow
  categories : List NamedRow
  nextCategoryId : Nat
  tags : List NamedRow
  pathCategories : List (Nat × Nat)
  pathTags : List (Nat × Nat)
  settings : List (List Char × Int)
  deriving DecidableEq, Repr

/-- The row filter assembled by `structured_search` (lines 1561-1598):
for each supplied (non-empty) filter, the corresponding JOIN plus
`WHERE` conjunct; an empty filter contributes nothing. -/
def structuredPred (st : Store) (category tag nm : List Char)
    (p : PathRow) : Bool :=
  (category.isEmpty ||
    st.categories.any (fun c => ciEq c.2 category &&
      st.pathCategories.any (fun pc => pc.1 == p.id && pc.2 == c.1))) &&
  (tag.isEmpty ||
    st.tags.any (fun t => ciEq t.2 tag &&
      st.pathTags.any (fun pt => pt.1 == p.id && pt.2 == t.1))) &&
  (nm.isEmpty || nameLike nm p.name)

/-- `ORDER BY p.path` key (BINARY collation of the `path` column). -/
def pathLE (a b : List Char × Bool × Option Int) : Bool := strLE a.1 b.1

/-- `structured_search` (lines 1561-1631): `SELECT DISTINCT p.path,
p.is_directory, p.size` over the joined filters, ordered by path,
limited to `max_results`.  Empty strings are the C encoding of absent
filters. -/
def structured_search (st : Store) (category tag nm : List Char)
    (maxResults : Nat) : List (List Char × Bool × Option Int) :=
  (sortBy pathLE
    (((st.paths.filter (structuredPred st category tag nm)).map
      (fun p => (p.path, p.isDir, p.size))).dedup)).take maxResults

/-! ### Settings and store initialization (claims C4 and C6) -/
def DEFAULT_SCHEMA_VERSION : Int := 1

def DEFAULT_APP_VERSION : Int := 1

def DEFAULT_SIMILARITY_THRESHOLD : Int := 3

def DEFAULT_MAX_RESULTS : Int := 20

def DEFAULT_FUZZY_DISTANCE : Int := 3

/-- `get_int_setting` (lines 280-297): when the settings table is absent
the prepare fails and the default is returned; a missing key also yields
the default.  (Settings values are stored as strings of decimal
integers and read back with `atoi`; the model keeps the integer.) -/
def get_int_setting (st : Store) (key : List Char) (d : Int) : Int :=
  if st.hasSettingsTable = false then d
  else
    match st.settings.find? (fun kv => kv.1 == key) with
    | some kv => kv.2
    | none => d

/-- `set_int_setting` (lines 299-317): `INSERT OR REPLACE INTO settings`
(the replaced row moves to the end, as a delete-and-insert). -/
def set_int_setting (st : Store) (key : List Char) (v : Int) : Store :=
  { st with settings :=
      (st.settings.filter (fun kv => !(kv.1 == key))) ++ [(key, v)] }

/-- `create_schema_v1` (lines 414-482): `CREATE TABLE IF NOT EXISTS` for
every table and index — table contents are untouched, missing tables
appear. -/
def create_schema_v1 (st : Store) : Store :=
  { st with
    hasPathsTable := true
    hasSettingsTable := true }

/-- `insert_default_settings` (lines 484-491). -/
def insert_default_settings (st : Store) : Store :=
  set_int_setting
    (set_int_setting
      (set_int_setting
        (set_int_setting
          (set_int_setting st ("schema_version".toList)
            DEFAULT_SCHEMA_VERSION)
          ("app_version".toList) DEFAULT_APP_VERSION)
        ("similarity_threshold".toList) DEFAULT_SIMILARITY_THRESHOLD)
      ("max_results".toList) DEFAULT_MAX_RESULTS)
    ("fuzzy_default_distance".toList) DEFAULT_FUZZY_DISTANCE

/-- `insert_default_categories` (lines 493-512): `INSERT OR IGNORE` of
the five seed names, in order; a BINARY-equal existing name is skipped. -/
def insert_default_categories (st : Store) : Store :=
  (["Games", "Music", "Photos", "Documents", "Uncategorized"].map
    String.toList).foldl
    (fun s n =>
      if s.categories.any (fun c => c.2 == n) then s
      else
        { s with
          categories := s.categories ++ [(s.nextCategoryId, n)]
          nextCategoryId := s.nextCategoryId + 1 })
    st

/-- The migration bulk assignment (lines 587-591): `INSERT OR IGNORE
INTO path_categories SELECT p.id, c.id FROM paths p, categories c WHERE
c.name = 'Uncategorized'`. -/
def assign_uncategorized (st : Store) : Store :=
  let newPairs : List (Nat × Nat) :=
    st.paths.flatMap fun p =>
      (st.categories.filter
        (fun c => c.2 == ("Uncategorized".toList))).map
        fun c => (p.id, c.1)
  let merged : List (Nat × Nat) :=
    newPairs.foldl
      (fun acc pr => if acc.any (fun q => q == pr) then acc
        else acc ++ [pr])
      st.pathCategories
  { st with pathCategories := merged }

/-- Result of `init_database`. -/
inductive InitOutcome
  | CreatedNew
  | MigratedLegacy
  | OpenedExisting
  deriving DecidableEq, Repr

/-- `init_database` (lines 514-601) from the point where the store file
is open.  `isNewDb` is `!file_exists(db_path)` (line 529); `userConfirms`
answers the migration prompt (line 571).  `none` in the first component
is the C `-1` failure return; the second component is the resulting
store.  Before the migration prompt the function only opens the store,
sets a pragma and registers the scalar function — no writes — so the
declined branch returns the store unchanged. -/
def init_database (isNewDb : Bool) (st : Store) (userConfirms : Bool) :
    Option InitOutcome × Store :=
  if isNewDb then
    (some .CreatedNew,
      insert_default_categories (insert_default_settings
        (create_schema_v1 st)))
  else
    if get_int_setting st ("schema_version".toList) 0 = 0 ∧
        st.hasSettingsTable = false then
      if userConfirms then
        (some .MigratedLegacy,
          assign_uncategorized (insert_default_categories
            (insert_default_settings (create_schema_v1 st))))
      else (none, st)
    else (some .OpenedExisting, st)

/-- `main` (lines 2101-2104): a failing `init_database` aborts the run
with exit status 1 before the interactive loop starts. -/
def main_exit_code (r : Option InitOutcome × Store) : Nat :=
  match r.1 with
  | none => 1
  | some _ => 0

theorem min3_eq_min (a b c : Nat) : min3 a b c = min a (min b c) := by
  simp only [min3]
  split_ifs <;> omega

theorem levW_nil_right (cst : Char → Char → Nat) (xs : List Char) :
    levW cst xs [] = xs.length := by
  cases xs <;> simp [levW]

theorem min3_cases (a b c : Nat) :
    min3 a b c = a ∨ min3 a b c = b ∨ min3 a b c = c := by
  rw [min3_eq_min]; omega

theorem min3_le_fst (a b c : Nat) : min3 a b c ≤ a := by
  rw [min3_eq_min]; omega

theorem min3_le_snd (a b c : Nat) : min3 a b c ≤ b := by
  rw [min3_eq_min]; omega

theorem min3_le_thd (a b c : Nat) : min3 a b c ≤ c := by
  rw [min3_eq_min]; omega

theorem editPath_nil_left (ys : List Char) : EditPath [] ys ys.length := by
  induction ys with
  | nil => exact .nil
  | cons y ys ih => exact .ins y ih

theorem editPath_nil_right (xs : List Char) : EditPath xs [] xs.length := by
  induction xs with
  | nil => exact .nil
  | cons x xs ih => exact .del x ih

theorem editPath_self (s : List Char) : EditPath s s 0 := by
  induction s with
  | nil => exact .nil
  | cons x s ih => exact .eq x ih

/-- The plain-cost recursion is achievable by an edit script. -/
theorem editPath_levP (xs : List Char) :
    ∀ ys, EditPath xs ys (levW costP xs ys) := by
  induction xs with
  | nil =>
    intro ys
    simpa [levW] using editPath_nil_left ys
  | cons x xs ih =>
    intro ys
    induction ys with
    | nil => simpa [levW] using editPath_nil_right (x :: xs)
    | cons y ys ih2 =>
      rw [show levW costP (x :: xs) (y :: ys) =
          min3 (levW costP (x :: xs) ys + 1) (levW costP xs (y :: ys) + 1)
            (levW costP xs ys + costP x y) from by rw [levW]]
      rcases min3_cases (levW costP (x :: xs) ys + 1)
          (levW costP xs (y :: ys) + 1) (levW costP xs ys + costP x y) with
        h | h | h <;> rw [h]
      · exact .ins y ih2
      · exact .del x (ih (y :: ys))
      · by_cases hxy : x = y
        · subst hxy
          simpa [costP] using EditPath.eq x (ih ys)
        · simpa [costP, hxy] using EditPath.sub x y (ih ys)

theorem levP_le_ins (xs ys : List Char) (y : Char) :
    levW costP xs (y :: ys) ≤ levW costP xs ys + 1 := by
  cases xs with
  | nil => simp [levW]
  | cons x xs =>
    rw [show levW costP (x :: xs) (y :: ys) =
        min3 (levW costP (x :: xs) ys + 1) (levW costP xs (y :: ys) + 1)
          (levW costP xs ys + costP x y) from by rw [levW]]
    exact min3_le_fst _ _ _

theorem levP_le_del (xs ys : List Char) (x : Char) :
    levW costP (x :: xs) ys ≤ levW costP xs ys + 1 := by
  cases ys with
  | nil => simp [levW, levW_nil_right]
  | cons y ys =>
    calc levW costP (x :: xs) (y :: ys)
        ≤ levW costP xs (y :: ys) + 1 := by
          rw [show levW costP (x :: xs) (y :: ys) =
              min3 (levW costP (x :: xs) ys + 1) (levW costP xs (y :: ys) + 1)
                (levW costP xs ys + costP x y) from by rw [levW]]
          exact min3_le_snd _ _ _

theorem levP_le_sub (xs ys : List Char) (x y : Char) :
    levW costP (x :: xs) (y :: ys) ≤ levW costP xs ys + 1 := by
  rw [show levW costP (x :: xs) (y :: ys) =
      min3 (levW costP (x :: xs) ys + 1) (levW costP xs (y :: ys) + 1)
        (levW costP xs ys + costP x y) from by rw [levW]]
  refine (min3_le_thd _ _ _).trans ?_
  have : costP x y ≤ 1 := by unfold costP; split <;> omega
  omega

theorem levP_le_eq (xs ys : List Char) (x : Char) :
    levW costP (x :: xs) (x :: ys) ≤ levW costP xs ys := by
  rw [show levW costP (x :: xs) (x :: ys) =
      min3 (levW costP (x :: xs) ys + 1) (levW costP xs (x :: ys) + 1)
        (levW costP xs ys + costP x x) from by rw [levW]]
  refine (min3_le_thd _ _ _).trans ?_
  simp [costP]

/-- The plain-cost recursion is a lower bound on every edit script. -/
theorem editPath_ge {xs ys : List Char} {n : Nat} (h : EditPath xs ys n) :
    levW costP xs ys ≤ n := by
  induction h with
  | nil => simp [levW]
  | ins y _ ih => exact (levP_le_ins _ _ y).trans (by omega)
  | del x _ ih => exact (levP_le_del _ _ x).trans (by omega)
  | sub x y _ ih => exact (levP_le_sub _ _ x y).trans (by omega)
  | eq x _ ih => exact (levP_le_eq _ _ x).trans ih

theorem editPath_symm {xs ys : List Char} {n : Nat} (h : EditPath xs ys n) :
    EditPath ys xs n := by
  induction h with
  | nil => exact .nil
  | ins y _ ih => exact .del y ih
  | del x _ ih => exact .ins x ih
  | sub x y _ ih => exact .sub y x ih
  | eq x _ ih => exact .eq x ih

theorem editPath_append_ins {u v : List Char} {n : Nat} (y : Char)
    (h : EditPath u v n) : EditPath u (v ++ [y]) (n + 1) := by
  induction h with
  | nil => exact .ins y .nil
  | ins y' _ ih => exact .ins y' ih
  | del x' _ ih => exact .del x' ih
  | sub x' y' _ ih => exact .sub x' y' ih
  | eq x' _ ih => exact .eq x' ih

theorem editPath_append_del {u v : List Char} {n : Nat} (x : Char)
    (h : EditPath u v n) : EditPath (u ++ [x]) v (n + 1) := by
  induction h with
  | nil => exact .del x .nil
  | ins y' _ ih => exact .ins y' ih
  | del x' _ ih => exact .del x' ih
  | sub x' y' _ ih => exact .sub x' y' ih
  | eq x' _ ih => exact .eq x' ih

theorem editPath_append_sub {u v : List Char} {n : Nat} (x y : Char)
    (h : EditPath u v n) : EditPath (u ++ [x]) (v ++ [y]) (n + 1) := by
  induction h with
  | nil => exact .sub x y .nil
  | ins y' _ ih => exact .ins y' ih
  | del x' _ ih => exact .del x' ih
  | sub x' y' _ ih => exact .sub x' y' ih
  | eq x' _ ih => exact .eq x' ih

theorem editPath_append_eq {u v : List Char} {n : Nat} (x : Char)
    (h : EditPath u v n) : EditPath (u ++ [x]) (v ++ [x]) n := by
  induction h with
  | nil => exact .eq x .nil
  | ins y' _ ih => exact .ins y' ih
  | del x' _ ih => exact .del x' ih
  | sub x' y' _ ih => exact .sub x' y' ih
  | eq x' _ ih => exact .eq x' ih

theorem editPath_reverse {u v : List Char} {n : Nat} (h : EditPath u v n) :
    EditPath u.reverse v.reverse n := by
  induction h with
  | nil => exact .nil
  | ins y _ ih => rw [List.reverse_cons]; exact editPath_append_ins y ih
  | del x _ ih => rw [List.reverse_cons]; exact editPath_append_del x ih
  | sub x y _ ih =>
    rw [List.reverse_cons, List.reverse_cons]
    exact editPath_append_sub x y ih
  | eq x _ ih =>
    rw [List.reverse_cons, List.reverse_cons]
    exact editPath_append_eq x ih

theorem levP_symm (u v : List Char) :
    levW costP u v = levW costP v u :=
  Nat.le_antisymm (editPath_ge (editPath_symm (editPath_levP v u)))
    (editPath_ge (editPath_symm (editPath_levP u v)))

theorem levP_reverse (u v : List Char) :
    levW costP u.reverse v.reverse = levW costP u v := by
  refine Nat.le_antisymm ?_ ?_
  · exact editPath_ge (editPath_reverse (editPath_levP u v))
  · have h := editPath_reverse (editPath_levP u.reverse v.reverse)
    rw [List.reverse_reverse, List.reverse_reverse] at h
    exact editPath_ge h

theorem levP_self (s : List Char) : levW costP s s = 0 :=
  Nat.le_zero.mp (editPath_ge (editPath_self s))

theorem specRow_head_tail (w u as : List Char) :
    specRow w u as = levW costCI u w :: (specRow w u as).tail := by
  cases as <;> rfl

theorem dpStep_spec (bj : Char) (v : List Char) :
    ∀ (as u : List Char),
      dpStep bj as (levW costCI u (bj :: v)) (specRow v u as) =
        (specRow (bj :: v) u as).tail := by
  intro as
  induction as with
  | nil => intro u; rfl
  | cons x xs ih =>
    intro u
    rw [specRow, specRow]
    rw [dpStep]
    have hhead : (specRow v (x :: u) xs).headD 0 = levW costCI (x :: u) v := by
      rw [specRow_head_tail v (x :: u) xs]; rfl
    have hrec : min3 ((specRow v (x :: u) xs).headD 0 + 1)
        (levW costCI u (bj :: v) + 1) (levW costCI u v + costCI x bj) =
        levW costCI (x :: u) (bj :: v) := by
      rw [hhead]
      rw [show levW costCI (x :: u) (bj :: v) =
          min3 (levW costCI (x :: u) v + 1) (levW costCI u (bj :: v) + 1)
            (levW costCI u v + costCI x bj) from by rw [levW]]
    simp only [hrec, List.tail_cons]
    rw [ih (x :: u)]
    exact (specRow_head_tail (bj :: v) (x :: u) xs).symm

theorem dpRow_spec (a : List Char) (bj : Char) (v : List Char) :
    dpRow a bj (v.length + 1) (specRow v [] a) = specRow (bj :: v) [] a := by
  have hj : v.length + 1 = levW costCI [] (bj :: v) := by simp [levW]
  rw [dpRow, hj, dpStep_spec bj v a []]
  exact (specRow_head_tail (bj :: v) [] a).symm

theorem dpLoop_spec (a : List Char) :
    ∀ (bs v : List Char),
      dpLoop a bs (v.length + 1) (specRow v [] a) =
        specRow (bs.reverse ++ v) [] a := by
  intro bs
  induction bs with
  | nil => intro v; simp [dpLoop]
  | cons bj bs ih =>
    intro v
    rw [dpLoop, dpRow_spec a bj v]
    have := ih (bj :: v)
    simp only [List.length_cons] at this
    rw [this, List.reverse_cons, List.append_assoc]
    rfl

theorem specRow_getLastD (w : List Char) :
    ∀ (as u : List Char) (d : Nat),
      (specRow w u as).getLastD d = levW costCI (as.reverse ++ u) w := by
  intro as
  induction as with
  | nil => intro u d; simp [specRow]
  | cons x xs ih =>
    intro u d
    rw [specRow, List.getLastD_cons, ih (x :: u)]
    rw [List.reverse_cons, List.append_assoc]
    rfl

theorem specRow_nil_w :
    ∀ (as u : List Char),
      specRow [] u as = List.range' u.length (as.length + 1) := by
  intro as
  induction as with
  | nil =>
    intro u
    simp [specRow, levW_nil_right, List.range'_succ]
  | cons x xs ih =>
    intro u
    rw [specRow, ih (x :: u), levW_nil_right]
    rw [show (x :: xs).length + 1 = (xs.length + 1) + 1 from by simp]
    simp [List.range'_succ]

/-- The whole dynamic program computes the case-insensitive distance of the
reversed inputs. -/
theorem levDP_eq (a b : List Char) :
    levDP a b = levW costCI a.reverse b.reverse := by
  have hinit : List.range (a.length + 1) = specRow [] [] a := by
    rw [specRow_nil_w a [], List.range_eq_range']
    rfl
  rw [levDP, hinit]
  have := dpLoop_spec a b []
  simp only [List.length_nil, List.append_nil] at this
  rw [this, specRow_getLastD b.reverse a []]
  rw [List.append_nil]

theorem costCI_eq_costP (x y : Char) :
    costCI x y = costP x.toLower y.toLower := by
  simp [costCI, costP]

/-- Case-insensitive cost over the originals is plain cost over the
ASCII-folded strings. -/
theorem levW_map_toLower (xs : List Char) :
    ∀ ys, levW costCI xs ys =
      levW costP (xs.map Char.toLower) (ys.map Char.toLower) := by
  induction xs with
  | nil => intro ys; simp [levW]
  | cons x xs ih =>
    intro ys
    induction ys with
    | nil => simp [levW, levW_nil_right]
    | cons y ys ih2 =>
      have h1 := ih (y :: ys)
      have h2 := ih ys
      have h3 := ih2
      simp only [List.map_cons] at h1 h3 ⊢
      rw [show levW costCI (x :: xs) (y :: ys) =
          min3 (levW costCI (x :: xs) ys + 1) (levW costCI xs (y :: ys) + 1)
            (levW costCI xs ys + costCI x y) from by rw [levW]]
      rw [show levW costP (x.toLower :: xs.map Char.toLower)
            (y.toLower :: ys.map Char.toLower) =
          min3
            (levW costP (x.toLower :: xs.map Char.toLower)
              (ys.map Char.toLower) + 1)
            (levW costP (xs.map Char.toLower)
              (y.toLower :: ys.map Char.toLower) + 1)
            (levW costP (xs.map Char.toLower) (ys.map Char.toLower) +
              costP x.toLower y.toLower) from by rw [levW]]
      rw [h1, h2, h3, costCI_eq_costP]

/-- With both allocations succeeding, the C function computes the
plain-cost distance of the ASCII-folded inputs. -/
theorem levenshtein_eq_levP (s1 s2 : List Char) :
    levenshtein true s1 s2 =
      (levW costP (str_to_lower s1) (str_to_lower s2) : Int) := by
  unfold levenshtein str_to_lower
  by_cases h1 : s1.length = 0
  · have hs1 : s1 = [] := List.length_eq_zero.mp h1
    subst hs1
    simp [levW]
  · by_cases h2 : s2.length = 0
    · have hs2 : s2 = [] := List.length_eq_zero.mp h2
      subst hs2
      simp [h1, levW_nil_right]
    · by_cases hlt : s2.length < s1.length <;>
        simp only [h1, h2, hlt, if_true, if_false, if_pos, if_neg,
          not_false_eq_true]
      · rw [levDP_eq, levW_map_toLower, List.map_reverse, List.map_reverse,
          levP_reverse, levP_symm]
      · rw [levDP_eq, levW_map_toLower, List.map_reverse, List.map_reverse,
          levP_reverse]

/-- **C1**: with the working-buffer allocations succeeding, `levenshtein`
returns exactly the minimum number of single-character insertions,
deletions and substitutions transforming the ASCII-lowercase folding of
the first argument into that of the second; in particular
`levenshtein s s = 0` and `levenshtein "" s = length s`. -/
theorem levenshtein_min_edits (s1 s2 : List Char) :
    (∃ d : Nat, levenshtein true s1 s2 = (d : Int) ∧
      EditPath (str_to_lower s1) (str_to_lower s2) d ∧
      ∀ n, EditPath (str_to_lower s1) (str_to_lower s2) n → d ≤ n) ∧
    levenshtein true s1 s1 = 0 ∧
    levenshtein true [] s2 = (s2.length : Int) := by
  refine ⟨⟨levW costP (str_to_lower s1) (str_to_lower s2),
      levenshtein_eq_levP s1 s2, editPath_levP _ _,
      fun n h => editPath_ge h⟩, ?_, ?_⟩
  · rw [levenshtein_eq_levP, levP_self]
    rfl
  · simp [levenshtein]

/-- **C10**: `levenshtein` yields the `-1` sentinel exactly when a
working-row allocation fails (which can only happen when both strings are
non-empty, since the rows are allocated after the early returns); with
successful allocations the result is non-negative; and the SQL scalar
function forwards the `levenshtein` result — sentinel included — whenever
both arguments are non-NULL. -/
theorem levenshtein_sentinel (ok : Bool) (s1 s2 : List Char) :
    (levenshtein ok s1 s2 = -1 ↔ ok = false ∧ s1 ≠ [] ∧ s2 ≠ []) ∧
    0 ≤ levenshtein true s1 s2 ∧
    sqlite_levenshtein ok (some s1) (some s2) =
      some (levenshtein ok s1 s2) := by
  refine ⟨?_, ?_, rfl⟩
  · cases s1 with
    | nil => simp [levenshtein]
    | cons a as =>
      cases s2 with
      | nil =>
        simp only [levenshtein, List.length_cons, List.length_nil]
        rw [if_pos trivial]
        constructor
        · intro h
          omega
        · rintro ⟨-, -, h⟩
          exact absurd rfl h
      | cons b bs =>
        cases ok with
        | false =>
          simp [levenshtein]
        | true =>
          rw [levenshtein_eq_levP]
          constructor
          · intro h
            exact absurd h (by omega)
          · rintro ⟨h, -, -⟩
            exact Bool.noConfusion h
  · rw [levenshtein_eq_levP]
    exact Int.natCast_nonneg _

theorem findSimilarStep_subGood_inv (threshold : Int) (newTag t : List Char)
    (st : SimState) (h : st.isSub = true → SubGood newTag st) :
    (findSimilarStep threshold newTag st t).isSub = true →
      SubGood newTag (findSimilarStep threshold newTag st t) := by
  unfold findSimilarStep
  split
  case isTrue hsub =>
    split
    case isTrue hc =>
      intro _
      exact ⟨rfl, Nat.succ_pos _, hsub, rfl⟩
    case isFalse hc => exact h
  case isFalse hsub =>
    split
    case isTrue hc =>
      intro hfalse
      exact absurd hfalse (by simp)
    case isFalse hc => exact h

theorem foldl_subGood_inv (threshold : Int) (newTag : List Char) :
    ∀ (l : List (List Char)) (st : SimState),
      (st.isSub = true → SubGood newTag st) →
      (l.foldl (findSimilarStep threshold newTag) st).isSub = true →
        SubGood newTag (l.foldl (findSimilarStep threshold newTag) st) := by
  intro l
  induction l with
  | nil => intro st h; exact h
  | cons t ts ih =>
    intro st h
    exact ih _ (findSimilarStep_subGood_inv threshold newTag t st h)

theorem findSimilarStep_records_sub (threshold : Int) (newTag t0 : List Char)
    (st : SimState) (h0 : is_substring_match newTag t0 = true)
    (h : st.isSub = true → SubGood newTag st) :
    SubGood newTag (findSimilarStep threshold newTag st t0) := by
  unfold findSimilarStep
  rw [if_pos h0]
  split
  case isTrue hc => exact ⟨rfl, Nat.succ_pos _, h0, rfl⟩
  case isFalse hc =>
    push_neg at hc
    exact h (by
      cases hb : st.isSub with
      | false => exact absurd hb hc.2
      | true => rfl)

theorem findSimilarStep_harmless (threshold : Int) (newTag t : List Char)
    (st : SimState) (hst : SubGood newTag st)
    (ht : is_substring_match newTag t = true ∨
      ¬(0 < levenshtein true newTag t ∧
        levenshtein true newTag t ≤ threshold)) :
    findSimilarStep threshold newTag st t = st := by
  obtain ⟨hsub, hfound, -, -⟩ := hst
  unfold findSimilarStep
  split
  case isTrue h1 =>
    rw [if_neg]
    intro hc
    rcases hc with hc | hc
    · omega
    · rw [hsub] at hc
      exact Bool.noConfusion hc
  case isFalse h1 =>
    rw [if_neg]
    rcases ht with h2 | h2
    · exact absurd h2 h1
    · intro hcond
      exact h2 ⟨hcond.1, hcond.2.1⟩

theorem foldl_harmless (threshold : Int) (newTag : List Char) :
    ∀ (post : List (List Char)) (st : SimState), SubGood newTag st →
      (∀ t ∈ post, is_substring_match newTag t = true ∨
        ¬(0 < levenshtein true newTag t ∧
          levenshtein true newTag t ≤ threshold)) →
      post.foldl (findSimilarStep threshold newTag) st = st := by
  intro post
  induction post with
  | nil => intro st _ _; rfl
  | cons t ts ih =>
    intro st hst hpost
    rw [List.foldl_cons,
      findSimilarStep_harmless threshold newTag t st hst
        (hpost t (List.mem_cons_self t ts))]
    exact ih st hst fun u hu => hpost u (List.mem_cons_of_mem t hu)

/-- **C2 (amended)**: in the similarity scan, if some existing tag is a
case-insensitive bidirectional substring match of the proposed name and
every tag scanned after it is either itself a substring match or has edit
distance outside `(0, threshold]`, then the reported similar tag is a
substring match, reported with the length difference rather than an edit
distance.  Without the condition on later tags the property fails: a
later non-substring tag within the threshold overwrites the substring
report (see the counterexample), so substring priority holds only up to
scan order. -/
theorem find_similar_substring_guarded (threshold : Int)
    (newTag t0 : List Char) (pre post : List (List Char))
    (h0 : is_substring_match newTag t0 = true)
    (hpost : ∀ t ∈ post, is_substring_match newTag t = true ∨
      ¬(0 < levenshtein true newTag t ∧
        levenshtein true newTag t ≤ threshold)) :
    (find_similar_tags threshold newTag (pre ++ t0 :: post)).isSub = true ∧
    0 < (find_similar_tags threshold newTag (pre ++ t0 :: post)).found ∧
    is_substring_match newTag
      (find_similar_tags threshold newTag (pre ++ t0 :: post)).name = true ∧
    (find_similar_tags threshold newTag (pre ++ t0 :: post)).dist =
      |(newTag.length : Int) -
        ((find_similar_tags threshold newTag
          (pre ++ t0 :: post)).name.length : Int)| := by
  unfold find_similar_tags
  rw [List.foldl_append, List.foldl_cons]
  have hJ1 := foldl_subGood_inv threshold newTag pre
    { found := 0, best := threshold + 1, name := [], dist := 0,
      isSub := false } (by intro h; simp at h)
  have hG := findSimilarStep_records_sub threshold newTag t0 _ h0 hJ1
  rw [foldl_harmless threshold newTag post _ hG hpost]
  exact hG

/-- **C2 (counterexample)**: proposed tag `"abcd"` scanned against
existing tags `["abcdef", "abcx"]` (in that order).  `"abcdef"` is a
substring match, but the reported similar tag is the edit-distance match
`"abcx"` (`is_substring` is false), because the Levenshtein branch
overwrites the earlier substring report; with the opposite scan order the
substring match is reported.  This refutes both the priority and the
order-independence asserted by the claim. -/
theorem find_similar_substring_priority_cex :
    is_substring_match ("abcd".toList) ("abcdef".toList) = true ∧
    (find_similar_tags 3 ("abcd".toList)
      ["abcdef".toList, "abcx".toList]).isSub = false ∧
    (find_similar_tags 3 ("abcd".toList)
      ["abcdef".toList, "abcx".toList]).name = "abcx".toList ∧
    0 < (find_similar_tags 3 ("abcd".toList)
      ["abcdef".toList, "abcx".toList]).found ∧
    (find_similar_tags 3 ("abcd".toList)
      ["abcx".toList, "abcdef".toList]).isSub = true := by
  decide

/-- Witness: the amended C2 theorem applied to the concrete scan
`pre = ["abcx"]`, `t0 = "abcdef"`, `post = []` for proposed tag
`"abcd"`. -/
theorem find_similar_substring_guarded_witness :
    (find_similar_tags 3 ("abcd".toList)
      ["abcx".toList, "abcdef".toList]).isSub = true ∧
    0 < (find_similar_tags 3 ("abcd".toList)
      ["abcx".toList, "abcdef".toList]).found ∧
    is_substring_match ("abcd".toList)
      (find_similar_tags 3 ("abcd".toList)
        ["abcx".toList, "abcdef".toList]).name = true ∧
    (find_similar_tags 3 ("abcd".toList)
      ["abcx".toList, "abcdef".toList]).dist =
      |(("abcd".toList).length : Int) -
        (((find_similar_tags 3 ("abcd".toList)
          ["abcx".toList, "abcdef".toList]).name.length) : Int)| :=
  find_similar_substring_guarded 3 ("abcd".toList) ("abcdef".toList)
    ["abcx".toList] [] (by decide) (by simp)

/-! ### Category creation (claim C5) -/
/-- **C5 (counterexample)**: `"games"` is a case-insensitive duplicate of
the existing category `"Games"`, yet `create_category` succeeds and
inserts a second row, because the UNIQUE constraint compares with the
default BINARY collation. -/

theorem create_category_ci_duplicate_cex :
    ciEq ("Games".toList) ("games".toList) = true ∧
    create_category [(1, "Games".toList)] 2 ("games".toList) =
      some (2, [(1, "Games".toList), (2, "games".toList)]) := by
  decide

/-- **C5 (amended)**: `create_category` fails (duplicate-name error,
no row inserted) exactly when a category with the byte-identical name
already exists; otherwise — in particular when the clash is only
case-insensitive — it appends a new row and returns its id. -/
theorem create_category_binary_unique (cats : List NamedRow) (nextId : Nat)
    (name : List Char) :
    (create_category cats nextId name = none ↔ ∃ c ∈ cats, c.2 = name) ∧
    ∀ r, create_category cats nextId name = some r →
      r = ((nextId : Int), cats ++ [(nextId, name)]) := by
  constructor
  · unfold create_category
    split
    case isTrue h =>
      simp only [List.any_eq_true, beq_iff_eq] at h
      exact iff_of_true rfl h
    case isFalse h =>
      simp only [List.any_eq_true, beq_iff_eq] at h
      exact iff_of_false (by simp) h
  · intro r hr
    unfold create_category at hr
    split at hr
    case isTrue => exact Option.noConfusion hr
    case isFalse => exact (Option.some_inj.mp hr).symm

/-- Witness: the amended C5 theorem applied to the table `[(1,"Games")]`
and the case-insensitively duplicate name `"games"`, whose insert
succeeds. -/
theorem create_category_binary_unique_witness :
    ((2 : Int), [(1, "Games".toList), (2, "games".toList)]) =
      ((2 : Int), [(1, "Games".toList)] ++ [(2, "games".toList)]) :=
  (create_category_binary_unique [(1, "Games".toList)] 2
    ("games".toList)).2 (2, [(1, "Games".toList), (2, "games".toList)])
    (by decide)

/-! ### The tag guard (claims C7 and C9) -/
/-- **C7**: when a tag whose name matches the requested one under the
case-insensitive collation already exists, `get_or_create_tag_with_check`
returns that tag's id (the first matching row), leaves the tag table
unchanged, and the similarity guard never runs: the outcome is
independent of how the confirmation prompts would be answered. -/
theorem get_or_create_existing (threshold : Int) (tags : List NamedRow)
    (nextId : Nat) (tagName : List Char) (c1 c2 c1' c2' : Bool)
    (h : ∃ t ∈ tags, ciEq t.2 tagName = true) :
    get_or_create_tag_with_check threshold tags nextId tagName c1 c2 =
      (.ReturnedExisting (get_tag_id tags tagName), tags) ∧
    0 ≤ get_tag_id tags tagName ∧
    get_or_create_tag_with_check threshold tags nextId tagName c1 c2 =
      get_or_create_tag_with_check threshold tags nextId tagName c1' c2' := by
  have hid : 0 ≤ get_tag_id tags tagName := by
    unfold get_tag_id
    obtain ⟨t, ht, hp⟩ := h
    have hsome : (tags.find? (fun t => ciEq t.2 tagName)).isSome :=
      List.find?_isSome.mpr ⟨t, ht, hp⟩
    obtain ⟨u, hu⟩ := Option.isSome_iff_exists.mp hsome
    rw [hu]
    exact Int.natCast_nonneg _
  refine ⟨?_, hid, ?_⟩
  · simp only [get_or_create_tag_with_check]
    rw [if_pos hid]
  · simp only [get_or_create_tag_with_check]
    rw [if_pos hid, if_pos hid]

/-- Witness: C7 applied to an existing tag `"Urgent"` requested as
`"urgent"`, with all combinations of confirmation answers. -/
theorem get_or_create_existing_witness :
    get_or_create_tag_with_check 3 [(5, "Urgent".toList)] 6
      ("urgent".toList) false false =
      (.ReturnedExisting
        (get_tag_id [(5, "Urgent".toList)] ("urgent".toList)),
        [(5, "Urgent".toList)]) ∧
    0 ≤ get_tag_id [(5, "Urgent".toList)] ("urgent".toList) ∧
    get_or_create_tag_with_check 3 [(5, "Urgent".toList)] 6
      ("urgent".toList) false false =
      get_or_create_tag_with_check 3 [(5, "Urgent".toList)] 6
        ("urgent".toList) true true :=
  get_or_create_existing 3 [(5, "Urgent".toList)] 6 ("urgent".toList)
    false false true true (by decide)

/-- **C9**: when the guard reports a conflict (no exact case-insensitive
match, at least one similar tag found), refusing "create anyway" never
changes the tag table, and refusing both prompts ends in the cancelled
state with no tag id and the table unchanged. -/
theorem guard_conflict_requires_consent (threshold : Int)
    (tags : List NamedRow) (nextId : Nat) (tagName : List Char) (c2 : Bool)
    (h1 : get_tag_id tags tagName < 0)
    (h2 : 0 < (find_similar_tags threshold tagName
      (tags.map (fun t => t.2))).found) :
    (get_or_create_tag_with_check threshold tags nextId tagName
      false c2).2 = tags ∧
    get_or_create_tag_with_check threshold tags nextId tagName
      false false = (.Cancelled, tags) := by
  constructor
  · simp only [get_or_create_tag_with_check]
    rw [if_neg (by omega), if_pos ⟨h2, trivial⟩]
    cases c2 <;> rfl
  · simp only [get_or_create_tag_with_check]
    rw [if_neg (by omega), if_pos ⟨h2, trivial⟩, if_neg (by simp)]

/-- Witness: C9 applied to proposing `"Urgant"` while `"Urgent"` exists
(edit distance 1 ≤ threshold 3). -/
theorem guard_conflict_requires_consent_witness :
    (get_or_create_tag_with_check 3 [(1, "Urgent".toList)] 2
      ("Urgant".toList) false true).2 = [(1, "Urgent".toList)] ∧
    get_or_create_tag_with_check 3 [(1, "Urgent".toList)] 2
      ("Urgant".toList) false false =
      (.Cancelled, [(1, "Urgent".toList)]) :=
  guard_conflict_requires_consent 3 [(1, "Urgent".toList)] 2
    ("Urgant".toList) true (by decide) (by decide)

theorem strLE_cons (x y : Char) (xs ys : List Char) :
    strLE (x :: xs) (y :: ys) = true ↔
      x.toNat < y.toNat ∨ (x.toNat = y.toNat ∧ strLE xs ys = true) := by
  simp only [strLE]
  split_ifs with h1 h2
  · simp [h1]
  · refine iff_of_false (by simp) ?_
    rintro (h | ⟨h, -⟩) <;> omega
  · constructor
    · intro hs
      exact Or.inr ⟨by omega, hs⟩
    · rintro (h | ⟨-, hs⟩)
      · omega
      · exact hs

theorem strLE_total (a : List Char) :
    ∀ b, strLE a b = true ∨ strLE b a = true := by
  induction a with
  | nil => intro b; left; rfl
  | cons x xs ih =>
    intro b
    cases b with
    | nil => right; rfl
    | cons y ys =>
      rw [strLE_cons, strLE_cons]
      rcases Nat.lt_trichotomy x.toNat y.toNat with h | h | h
      · exact Or.inl (Or.inl h)
      · rcases ih ys with hs | hs
        · exact Or.inl (Or.inr ⟨h, hs⟩)
        · exact Or.inr (Or.inr ⟨h.symm, hs⟩)
      · exact Or.inr (Or.inl h)

theorem strLE_trans (a : List Char) :
    ∀ b c, strLE a b = true → strLE b c = true → strLE a c = true := by
  induction a with
  | nil => intro b c _ _; rfl
  | cons x xs ih =>
    intro b c hab hbc
    cases b with
    | nil => exact absurd hab (by simp [strLE])
    | cons y ys =>
      cases c with
      | nil => exact absurd hbc (by simp [strLE])
      | cons z zs =>
        rw [strLE_cons] at hab hbc ⊢
        rcases hab with h1 | ⟨h1, hs1⟩ <;> rcases hbc with h2 | ⟨h2, hs2⟩
        · exact Or.inl (by omega)
        · exact Or.inl (by omega)
        · exact Or.inl (by omega)
        · exact Or.inr ⟨by omega, ih ys zs hs1 hs2⟩

theorem insertSorted_perm {α : Type} (le : α → α → Bool) (r : α) :
    ∀ l : List α, List.Perm (insertSorted le r l) (r :: l) := by
  intro l
  induction l with
  | nil => exact List.Perm.refl _
  | cons x xs ih =>
    unfold insertSorted
    split
    · exact List.Perm.refl _
    · exact (ih.cons x).trans (List.Perm.swap r x xs)

theorem sortBy_perm {α : Type} (le : α → α → Bool) :
    ∀ l : List α, List.Perm (sortBy le l) l := by
  intro l
  induction l with
  | nil => exact List.Perm.refl _
  | cons x xs ih =>
    exact (insertSorted_perm le x (sortBy le xs)).trans (ih.cons x)

theorem mem_insertSorted {α : Type} (le : α → α → Bool) (r : α)
    (l : List α) (y : α) : y ∈ insertSorted le r l ↔ y = r ∨ y ∈ l := by
  rw [(insertSorted_perm le r l).mem_iff, List.mem_cons]

theorem mem_sortBy {α : Type} (le : α → α → Bool) (l : List α) (y : α) :
    y ∈ sortBy le l ↔ y ∈ l :=
  (sortBy_perm le l).mem_iff

theorem pairwise_insertSorted {α : Type} (le : α → α → Bool)
    (htotal : ∀ a b, le a b = true ∨ le b a = true)
    (htrans : ∀ a b c, le a b = true → le b c = true → le a c = true)
    (r : α) :
    ∀ l, l.Pairwise (fun a b => le a b = true) →
      (insertSorted le r l).Pairwise (fun a b => le a b = true) := by
  intro l
  induction l with
  | nil =>
    intro _
    exact List.pairwise_singleton _ r
  | cons x xs ih =>
    intro h
    obtain ⟨hx, hxs⟩ := List.pairwise_cons.mp h
    unfold insertSorted
    split
    case isTrue hrx =>
      refine List.pairwise_cons.mpr ⟨?_, h⟩
      intro b hb
      rcases List.mem_cons.mp hb with rfl | hb
      · exact hrx
      · exact htrans r x b hrx (hx b hb)
    case isFalse hrx =>
      refine List.pairwise_cons.mpr ⟨?_, ih hxs⟩
      intro b hb
      rcases (mem_insertSorted le r xs b).mp hb with hbr | hb
      · rw [hbr]
        rcases htotal r x with hcon | hxr
        · exact absurd hcon hrx
        · exact hxr
      · exact hx b hb

theorem pairwise_sortBy {α : Type} (le : α → α → Bool)
    (htotal : ∀ a b, le a b = true ∨ le b a = true)
    (htrans : ∀ a b c, le a b = true → le b c = true → le a c = true) :
    ∀ l : List α, (sortBy le l).Pairwise (fun a b => le a b = true) := by
  intro l
  induction l with
  | nil => exact List.Pairwise.nil
  | cons x xs ih => exact pairwise_insertSorted le htotal htrans x _ ih

theorem fuzzyLE_total {α : Type} (key : α → List Char) (p q : α × Int) :
    fuzzyLE key p q = true ∨ fuzzyLE key q p = true := by
  unfold fuzzyLE
  rcases lt_trichotomy p.2 q.2 with h | h | h
  · left; simp [h]
  · rcases strLE_total (key p.1) (key q.1) with hs | hs
    · left; simp [h, hs]
    · right; simp [h.symm, hs]
  · right; simp [h]

theorem fuzzyLE_trans {α : Type} (key : α → List Char) (p q r : α × Int)
    (h1 : fuzzyLE key p q = true) (h2 : fuzzyLE key q r = true) :
    fuzzyLE key p r = true := by
  unfold fuzzyLE at h1 h2 ⊢
  simp only [Bool.or_eq_true, Bool.and_eq_true, decide_eq_true_eq] at h1 h2 ⊢
  rcases h1 with h1 | ⟨h1, hs1⟩ <;> rcases h2 with h2 | ⟨h2, hs2⟩
  · left; omega
  · left; omega
  · left; omega
  · right
    exact ⟨by omega, strLE_trans _ _ _ hs1 hs2⟩

theorem fuzzy_query_spec {α : Type} (key : α → List Char)
    (query : List Char) (maxDist : Int) (maxResults : Nat) (rows : List α) :
    (∀ p ∈ fuzzy_query key query maxDist maxResults rows,
      p.1 ∈ rows ∧ p.2 = levenshtein true (key p.1) query ∧
      p.2 ≤ maxDist) ∧
    (fuzzy_query key query maxDist maxResults rows).length ≤ maxResults ∧
    (fuzzy_query key query maxDist maxResults rows).Pairwise
      (fun p q => p.2 < q.2 ∨ (p.2 = q.2 ∧
        strLE (key p.1) (key q.1) = true)) := by
  refine ⟨?_, ?_, ?_⟩
  · intro p hp
    have hp1 : p ∈ sortBy (fuzzyLE key)
        ((rows.map (fun r => (r, levenshtein true (key r) query))).filter
          (fun p => decide (p.2 ≤ maxDist))) := List.mem_of_mem_take hp
    rw [mem_sortBy, List.mem_filter] at hp1
    obtain ⟨hmem, hle⟩ := hp1
    obtain ⟨r, hr, rfl⟩ := List.mem_map.mp hmem
    exact ⟨hr, rfl, by simpa using hle⟩
  · exact (List.length_take _ _).le.trans (min_le_left _ _)
  · have hpw := pairwise_sortBy (fuzzyLE key) (fuzzyLE_total key)
      (fuzzyLE_trans key)
      ((rows.map (fun r => (r, levenshtein true (key r) query))).filter
        (fun p => decide (p.2 ≤ maxDist)))
    have hsub := hpw.sublist (List.take_sublist maxResults
      (sortBy (fuzzyLE key)
        ((rows.map (fun r => (r, levenshtein true (key r) query))).filter
          (fun p => decide (p.2 ≤ maxDist)))))
    refine hsub.imp ?_
    intro p q h
    simpa [fuzzyLE, Bool.or_eq_true, Bool.and_eq_true] using h

/-- **C3 (amended)**: both fuzzy searches return only rows whose computed
distance to the query is at most the (effective) threshold, each paired
with its distance; results are sorted by ascending distance with ties
broken by BYTE-order (BINARY collation) comparison of the name — not the
case-insensitive order the claim states — and never exceed
`max_results` entries. -/
theorem fuzzy_search_sorted_bounded (query : List Char)
    (fuzzyDist maxDistance defaultDist : Int) (maxResults : Nat)
    (tags : List (List Char)) (paths : List PathRow) :
    (∀ p ∈ search_tags_fuzzy query fuzzyDist maxResults tags,
      p.1 ∈ tags ∧ p.2 = levenshtein true p.1 query ∧ p.2 ≤ fuzzyDist) ∧
    (search_tags_fuzzy query fuzzyDist maxResults tags).length ≤
      maxResults ∧
    (search_tags_fuzzy query fuzzyDist maxResults tags).Pairwise
      (fun p q => p.2 < q.2 ∨ (p.2 = q.2 ∧ strLE p.1 q.1 = true)) ∧
    (∀ p ∈ search_paths_fuzzy query maxDistance defaultDist maxResults
        paths,
      p.1 ∈ paths ∧ p.2 = levenshtein true p.1.name query ∧
      p.2 ≤ (if maxDistance < 0 then defaultDist else maxDistance)) ∧
    (search_paths_fuzzy query maxDistance defaultDist maxResults
      paths).length ≤ maxResults ∧
    (search_paths_fuzzy query maxDistance defaultDist maxResults
      paths).Pairwise
      (fun p q => p.2 < q.2 ∨ (p.2 = q.2 ∧
        strLE p.1.name q.1.name = true)) := by
  obtain ⟨ht1, ht2, ht3⟩ := fuzzy_query_spec (fun n : List Char => n) query
    fuzzyDist maxResults tags
  obtain ⟨hp1, hp2, hp3⟩ := fuzzy_query_spec (fun p : PathRow => p.name)
    query (if maxDistance < 0 then defaultDist else maxDistance) maxResults
    paths
  exact ⟨ht1, ht2, ht3, hp1, hp2, hp3⟩

/-- **C3 (counterexample)**: tags `["B", "a"]`, query `"ab"`: both have
distance 1, and the code returns `"B"` before `"a"` (BINARY order,
`'B' = 66 < 'a' = 97`), which violates ascending case-insensitive
tie-breaking (`"a"` precedes `"b"` after folding). -/
theorem search_tags_fuzzy_ci_order_cex :
    search_tags_fuzzy ("ab".toList) 3 20 ["B".toList, "a".toList] =
      [("B".toList, 1), ("a".toList, 1)] ∧
    ¬ List.Pairwise (fun p q : List Char × Int => p.2 < q.2 ∨
        (p.2 = q.2 ∧ ciLE p.1 q.1 = true))
      [("B".toList, 1), ("a".toList, 1)] := by
  decide

theorem ofNatAux_toNat :
    ∀ (n : Nat) (h : Nat.isValidChar n), (Char.ofNatAux n h).toNat = n :=
  fun _ _ => rfl

/-- `Char.toLower` only moves code points 65-90 to 97-122, so equality
with a character outside both ranges is unaffected by folding. -/
theorem toLower_eq_iff (c d : Char) (hd1 : d.toNat < 65 ∨ 90 < d.toNat)
    (hd2 : ¬(97 ≤ d.toNat ∧ d.toNat ≤ 122)) : c.toLower = d ↔ c = d := by
  simp only [Char.toLower]
  split_ifs with h
  · have hv : Nat.isValidChar (c.toNat + 32) := Or.inl (by omega)
    have h2 : (Char.ofNat (c.toNat + 32)).toNat = c.toNat + 32 := by
      unfold Char.ofNat
      rw [dif_pos hv]
      exact ofNatAux_toNat _ hv
    constructor
    · intro he
      have h1 := congrArg Char.toNat he
      rw [h2] at h1
      omega
    · intro he
      subst he
      exact absurd h (by omega)
  · exact Iff.rfl

theorem mem_str_to_lower_wildcard (flt : List Char) (d : Char)
    (hd1 : d.toNat < 65 ∨ 90 < d.toNat)
    (hd2 : ¬(97 ≤ d.toNat ∧ d.toNat ≤ 122)) :
    d ∈ str_to_lower flt ↔ d ∈ flt := by
  unfold str_to_lower
  rw [List.mem_map]
  constructor
  · rintro ⟨c, hc, he⟩
    rwa [← (toLower_eq_iff c d hd1 hd2).mp he]
  · intro hc
    exact ⟨d, hc, (toLower_eq_iff d d hd1 hd2).mpr rfl⟩

/-- A wildcard-free `LIKE` fragment followed by `%` matches exactly the
texts it starts. -/
theorem likeMatch_literal_pct (fl : List Char) :
    '%' ∉ fl → '_' ∉ fl →
    ∀ t, likeMatch (fl ++ ['%']) t = true ↔ fl <+: t := by
  induction fl with
  | nil =>
    intro _ _ t
    simp only [List.nil_append]
    constructor
    · intro _
      exact List.nil_prefix
    · intro _
      unfold likeMatch
      rw [if_pos rfl]
      apply List.any_eq_true.mpr
      refine ⟨[], List.mem_tails [] t |>.mpr (List.nil_suffix), ?_⟩
      rfl
  | cons c fl ih =>
    intro hp hu t
    have hc1 : c ≠ '%' := fun h => hp (h ▸ List.mem_cons_self c fl)
    have hc2 : c ≠ '_' := fun h => hu (h ▸ List.mem_cons_self c fl)
    have hp' : '%' ∉ fl := fun h => hp (List.mem_cons_of_mem c h)
    have hu' : '_' ∉ fl := fun h => hu (List.mem_cons_of_mem c h)
    rw [show (c :: fl) ++ ['%'] = c :: (fl ++ ['%']) from rfl]
    unfold likeMatch
    rw [if_neg hc1]
    cases t with
    | nil =>
      simp only []
      constructor
      · intro h
        exact absurd h (by simp)
      · intro h
        exact absurd h (by simp)
    | cons d ts =>
      rw [List.cons_prefix_cons]
      constructor
      · intro h
        simp only [Bool.and_eq_true, Bool.or_eq_true, beq_iff_eq] at h
        obtain ⟨hcd, hrest⟩ := h
        rcases hcd with hcd | hcd
        · exact absurd hcd hc2
        · exact ⟨hcd, (ih hp' hu' ts).mp hrest⟩
      · rintro ⟨hcd, hpre⟩
        simp only [Bool.and_eq_true, Bool.or_eq_true, beq_iff_eq]
        exact ⟨Or.inr hcd, (ih hp' hu' ts).mpr hpre⟩

/-- The full `'%' || f || '%'` pattern of a wildcard-free filter `f`
matches exactly the texts containing `f`. -/
theorem likeMatch_infix_iff (fl : List Char) (hp : '%' ∉ fl)
    (hu : '_' ∉ fl) (t : List Char) :
    likeMatch ('%' :: fl ++ ['%']) t = true ↔ fl <:+: t := by
  have hstep : likeMatch ('%' :: fl ++ ['%']) t =
      t.tails.any (fun s => likeMatch (fl ++ ['%']) s) := rfl
  rw [hstep, List.any_eq_true]
  constructor
  · rintro ⟨s, hs, hm⟩
    rw [List.mem_tails] at hs
    rw [likeMatch_literal_pct fl hp hu s] at hm
    exact List.infix_iff_prefix_suffix.mpr ⟨s, hm, hs⟩
  · intro h
    obtain ⟨s, hpre, hsuf⟩ := List.infix_iff_prefix_suffix.mp h
    exact ⟨s, (List.mem_tails s t).mpr hsuf,
      (likeMatch_literal_pct fl hp hu s).mpr hpre⟩

/-- For a filter without `LIKE` wildcards, `nameLike` is case-insensitive
substring containment. -/
theorem nameLike_iff (flt nm : List Char) (hp : '%' ∉ flt)
    (hu : '_' ∉ flt) :
    nameLike flt nm = true ↔ str_to_lower flt <:+: str_to_lower nm := by
  have hp' : '%' ∉ str_to_lower flt := fun h =>
    hp ((mem_str_to_lower_wildcard flt '%' (by decide) (by decide)).mp h)
  have hu' : '_' ∉ str_to_lower flt := fun h =>
    hu ((mem_str_to_lower_wildcard flt '_' (by decide) (by decide)).mp h)
  exact likeMatch_infix_iff (str_to_lower flt) hp' hu' (str_to_lower nm)

theorem pair_mem_exists (l : List (Nat × Nat)) (a b : Nat) :
    (∃ x ∈ l, x.1 = a ∧ x.2 = b) ↔ (a, b) ∈ l := by
  constructor
  · rintro ⟨⟨x1, x2⟩, hm, h1, h2⟩
    simp only at h1 h2
    rwa [h1, h2] at hm
  · intro hm
    exact ⟨(a, b), hm, rfl, rfl⟩

/-- `structuredPred` in semantic terms (for a wildcard-free name
filter): the conjunction of the supplied filters, each compared
case-insensitively, with absent (empty) filters imposing nothing. -/
theorem structuredPred_iff (st : Store) (category tag nm : List Char)
    (hp : '%' ∉ nm) (hu : '_' ∉ nm) (p : PathRow) :
    structuredPred st category tag nm p = true ↔
      (category = [] ∨ ∃ c ∈ st.categories, ciEq c.2 category = true ∧
        (p.id, c.1) ∈ st.pathCategories) ∧
      (tag = [] ∨ ∃ t ∈ st.tags, ciEq t.2 tag = true ∧
        (p.id, t.1) ∈ st.pathTags) ∧
      (nm = [] ∨ str_to_lower nm <:+: str_to_lower p.name) := by
  unfold structuredPred
  simp only [Bool.and_eq_true, Bool.or_eq_true, List.isEmpty_iff,
    List.any_eq_true, beq_iff_eq, pair_mem_exists,
    nameLike_iff nm p.name hp hu]
  tauto

theorem pathLE_total (a b : List Char × Bool × Option Int) :
    pathLE a b = true ∨ pathLE b a = true :=
  strLE_total a.1 b.1

theorem pathLE_trans (a b c : List Char × Bool × Option Int)
    (h1 : pathLE a b = true) (h2 : pathLE b c = true) :
    pathLE a c = true :=
  strLE_trans a.1 b.1 c.1 h1 h2

theorem structured_search_mem (st : Store) (category tag nm : List Char)
    (r : List Char × Bool × Option Int) :
    r ∈ sortBy pathLE
        (((st.paths.filter (structuredPred st category tag nm)).map
          (fun p => (p.path, p.isDir, p.size))).dedup) ↔
      ∃ p ∈ st.paths, structuredPred st category tag nm p = true ∧
        r = (p.path, p.isDir, p.size) := by
  rw [mem_sortBy, List.mem_dedup, List.mem_map]
  constructor
  · rintro ⟨p, hp, rfl⟩
    rw [List.mem_filter] at hp
    exact ⟨p, hp.1, hp.2, rfl⟩
  · rintro ⟨p, hp, hpred, rfl⟩
    exact ⟨p, List.mem_filter.mpr ⟨hp, hpred⟩, rfl⟩

/-- **C8 (amended)**: for a name filter free of the `LIKE` wildcards `%`
and `_`, structured search returns exactly the distinct
`(path, is_directory, size)` rows of the paths satisfying the
conjunction of the supplied filters — an absent (empty) filter imposes no
constraint, category and tag names are compared case-insensitively, the
name filter as a case-insensitive substring — ordered by path and
holding at most `max_results` entries ("exactly" in the sense that
nothing satisfying is omitted unless the limit cuts the list).  With
wildcard characters in the name filter the claim as stated fails (see
the counterexample): the filter is interpreted as a `LIKE` pattern, not
a literal substring. -/
theorem structured_search_filters (st : Store)
    (category tag nm : List Char) (maxResults : Nat)
    (hp : '%' ∉ nm) (hu : '_' ∉ nm) :
    (∀ r ∈ structured_search st category tag nm maxResults,
      ∃ p ∈ st.paths, r = (p.path, p.isDir, p.size) ∧
        (category = [] ∨ ∃ c ∈ st.categories, ciEq c.2 category = true ∧
          (p.id, c.1) ∈ st.pathCategories) ∧
        (tag = [] ∨ ∃ t ∈ st.tags, ciEq t.2 tag = true ∧
          (p.id, t.1) ∈ st.pathTags) ∧
        (nm = [] ∨ str_to_lower nm <:+: str_to_lower p.name)) ∧
    ((structured_search st category tag nm maxResults).length <
        maxResults →
      ∀ p ∈ st.paths,
        ((category = [] ∨ ∃ c ∈ st.categories, ciEq c.2 category = true ∧
          (p.id, c.1) ∈ st.pathCategories) ∧
        (tag = [] ∨ ∃ t ∈ st.tags, ciEq t.2 tag = true ∧
          (p.id, t.1) ∈ st.pathTags) ∧
        (nm = [] ∨ str_to_lower nm <:+: str_to_lower p.name)) →
        (p.path, p.isDir, p.size) ∈
          structured_search st category tag nm maxResults) ∧
    (structured_search st category tag nm maxResults).Nodup ∧
    (structured_search st category tag nm maxResults).Pairwise
      (fun a b => strLE a.1 b.1 = true) ∧
    (structured_search st category tag nm maxResults).length ≤
      maxResults := by
  have hmemfull := structured_search_mem st category tag nm
  have hnodupfull : (sortBy pathLE
      (((st.paths.filter (structuredPred st category tag nm)).map
        (fun p => (p.path, p.isDir, p.size))).dedup)).Nodup :=
    (sortBy_perm pathLE _).nodup_iff.mpr (List.nodup_dedup _)
  have hpwfull := pairwise_sortBy pathLE pathLE_total pathLE_trans
    (((st.paths.filter (structuredPred st category tag nm)).map
      (fun p => (p.path, p.isDir, p.size))).dedup)
  refine ⟨?_, ?_, ?_, ?_, ?_⟩
  · intro r hr
    have hfull := List.mem_of_mem_take hr
    obtain ⟨p, hpmem, hpred, rfl⟩ := (hmemfull r).mp hfull
    exact ⟨p, hpmem, rfl,
      (structuredPred_iff st category tag nm hp hu p).mp hpred⟩
  · intro hlen p hpmem hcond
    have hfull : (p.path, p.isDir, p.size) ∈ sortBy pathLE
        (((st.paths.filter (structuredPred st category tag nm)).map
          (fun q => (q.path, q.isDir, q.size))).dedup) :=
      (hmemfull _).mpr ⟨p, hpmem,
        (structuredPred_iff st category tag nm hp hu p).mpr hcond, rfl⟩
    unfold structured_search at hlen ⊢
    rw [List.length_take] at hlen
    have hlenfull : (sortBy pathLE
        (((st.paths.filter (structuredPred st category tag nm)).map
          (fun q => (q.path, q.isDir, q.size))).dedup)).length <
        maxResults := by omega
    rw [List.take_of_length_le (Nat.le_of_lt hlenfull)]
    exact hfull
  · exact hnodupfull.sublist (List.take_sublist _ _)
  · exact (hpwfull.sublist (List.take_sublist _ _)).imp (fun h => h)
  · unfold structured_search
    rw [List.length_take]
    omega

/-- **C8 (counterexample)**: with a single path named `"axxb"` and the
name filter `"a%b"`, structured search returns the path although
`"a%b"` is not a case-insensitive substring of `"axxb"`: the `%` in the
filter acts as a `LIKE` wildcard. -/
theorem structured_search_like_wildcard_cex :
    structured_search
      ⟨true, true, [⟨1, "/a".toList, "axxb".toList, false, none⟩],
        [], 0, [], [], [], []⟩
      [] [] ("a%b".toList) 20 =
      [("/a".toList, false, none)] ∧
    ¬ (str_to_lower ("a%b".toList) <:+: str_to_lower ("axxb".toList)) := by
  decide

/-- Witness: the amended C8 theorem applied to a store holding one path
named `"Zelda"` with the wildcard-free filters
`{name = "zel", category and tag absent}`. -/
theorem structured_search_filters_witness :
    (structured_search
      ⟨true, true, [⟨1, "/z".toList, "Zelda".toList, false, none⟩],
        [], 0, [], [], [], []⟩
      [] [] ("zel".toList) 20).Nodup ∧
    (structured_search
      ⟨true, true, [⟨1, "/z".toList, "Zelda".toList, false, none⟩],
        [], 0, [], [], [], []⟩
      [] [] ("zel".toList) 20).length ≤ 20 :=
  ⟨(structured_search_filters
      ⟨true, true, [⟨1, "/z".toList, "Zelda".toList, false, none⟩],
        [], 0, [], [], [], []⟩
      [] [] ("zel".toList) 20 (by decide) (by decide)).2.2.1,
   (structured_search_filters
      ⟨true, true, [⟨1, "/z".toList, "Zelda".toList, false, none⟩],
        [], 0, [], [], [], []⟩
      [] [] ("zel".toList) 20 (by decide) (by decide)).2.2.2.2⟩

/-! ### Initialization theorems (claims C4 and C6) -/
/-- **C4 (counterexample)**: a store whose settings table records
`schema_version = 2` (greater than the supported version 1) is opened
for normal operation, unchanged — initialization neither fails nor
detects the future version. -/
theorem init_future_version_cex :
    init_database false
      ⟨true, true, [], [], 0, [], [], [],
        [("schema_version".toList, 2)]⟩
      true =
      (some InitOutcome.OpenedExisting,
        ⟨true, true, [], [], 0, [], [], [],
          [("schema_version".toList, 2)]⟩) := by
  decide

/-- **C4 (amended)**: store initialization has no future-version check:
whenever the settings table exists — whatever `schema_version` holds,
in particular any version above the current one — the store is opened
for normal operation with its state untouched. -/
theorem init_no_future_version_check (st : Store) (c : Bool)
    (h : st.hasSettingsTable = true) :
    init_database false st c = (some .OpenedExisting, st) := by
  unfold init_database
  rw [if_neg (by simp), if_neg (by simp [h])]

/-- Witness: the amended C4 theorem applied to a store recording
`schema_version = 2`. -/
theorem init_no_future_version_check_witness :
    init_database false
      ⟨true, true, [], [], 0, [], [], [],
        [("schema_version".toList, 2)]⟩
      true =
      (some .OpenedExisting,
        ⟨true, true, [], [], 0, [], [], [],
          [("schema_version".toList, 2)]⟩) :=
  init_no_future_version_check
    ⟨true, true, [], [], 0, [], [], [],
      [("schema_version".toList, 2)]⟩
    true rfl

/-- **C6**: opening a legacy store (no settings table, so the versioned
schema is absent) and declining the migration prompt makes
initialization fail — `main` exits with status 1 — and leaves every part
of the store exactly as it was: no tables, settings, categories or
category memberships are created. -/
theorem migration_declined_untouched (st : Store)
    (h : st.hasSettingsTable = false) :
    init_database false st false = (none, st) ∧
    main_exit_code (init_database false st false) = 1 := by
  have hfail : init_database false st false = (none, st) := by
    unfold init_database
    rw [if_neg (by simp), if_pos ⟨by simp [get_int_setting, h], h⟩,
      if_neg (by simp)]
  exact ⟨hfail, by rw [hfail]; rfl⟩

/-- Witness: C6 applied to a legacy store holding one path row and
nothing else. -/
theorem migration_declined_untouched_witness :
    init_database false
      ⟨true, false, [⟨1, "/a".toList, "a".toList, true, none⟩],
        [], 0, [], [], [], []⟩
      false =
      (none,
        ⟨true, false, [⟨1, "/a".toList, "a".toList, true, none⟩],
          [], 0, [], [], [], []⟩) ∧
    main_exit_code (init_database false
      ⟨true, false, [⟨1, "/a".toList, "a".toList, true, none⟩],
        [], 0, [], [], [], []⟩
      false) = 1 :=
  migration_declined_untouched
    ⟨true, false, [⟨1, "/a".toList, "a".toList, true, none⟩],
      [], 0, [], [], [], []⟩
    rfl

/-- Witness: the C1 theorem instantiated at concrete strings: distance
from `"Finance"` to itself is 0 and distance from `""` to `"abc"` is its
length. -/
theorem levenshtein_min_edits_witness :
    levenshtein true ("Finance".toList) ("Finance".toList) = 0 ∧
    levenshtein true [] ("abc".toList) = (("abc".toList).length : Int) :=
  ⟨(levenshtein_min_edits ("Finance".toList) ("abc".toList)).2.1,
   (levenshtein_min_edits ("Finance".toList) ("abc".toList)).2.2⟩

/-- Witness: the C10 theorem instantiated at `"a"`, `"b"` with a failing
allocation. -/
theorem levenshtein_sentinel_witness :
    (levenshtein false ("a".toList) ("b".toList) = -1 ↔
      false = false ∧ "a".toList ≠ [] ∧ "b".toList ≠ []) ∧
    0 ≤ levenshtein true ("a".toList) ("b".toList) ∧
    sqlite_levenshtein false (some ("a".toList)) (some ("b".toList)) =
      some (levenshtein false ("a".toList) ("b".toList)) :=
  levenshtein_sentinel false ("a".toList) ("b".toList)

/-- Witness: the amended C3 theorem instantiated at the concrete corpus
of the counterexample. -/
theorem fuzzy_search_sorted_bounded_witness :
    (search_tags_fuzzy ("ab".toList) 3 20
      ["B".toList, "a".toList]).length ≤ 20 ∧
    (search_paths_fuzzy ("ab".toList) (-1) 3 20 []).length ≤ 20 :=
  ⟨(fuzzy_search_sorted_bounded ("ab".toList) 3 (-1) 3 20
      ["B".toList, "a".toList] []).2.1,
   (fuzzy_search_sorted_bounded ("ab".toList) 3 (-1) 3 20
      ["B".toList, "a".toList] []).2.2.2.2.1⟩

end FileSearch
